import Mathlib

set_option maxHeartbeats 1000000
set_option linter.unusedVariables false

/-! Shallow embedding of the Aptos aggregator extension
    (aptos-move/aptos-aggregator/src/aggregator_extension.rs) together with the
    bounded-math and delta-history helpers it uses.  u128 values are modelled as
    Nat: every arithmetic operation performed by the source is bounds-checked
    (checked add/sub against max_value), so no wrap-around is observable and
    Nat is an exact model.  Fallible Rust functions returning PartialVMResult
    are modelled with Except. -/

/-- Sum type of signed 128-bit deltas, mirroring SignedU128. -/
inductive SignedU128 where
  | Positive : Nat → SignedU128
  | Negative : Nat → SignedU128
deriving DecidableEq

/-- Mathematical value of a signed delta. -/
def SignedU128.toInt : SignedU128 → Int
  | .Positive v => (v : Int)
  | .Negative v => -(v : Int)

/-- Modelled from the spec: negation on SignedU128 (bounded_math.rs is not part
    of the provided sources). -/
def SignedU128.minus : SignedU128 → SignedU128
  | .Positive v => .Negative v
  | .Negative v => .Positive v

/-- Canonical signed representative of an integer (non-negative values become
    Positive). -/
def SignedU128.ofInt (s : Int) : SignedU128 :=
  if 0 ≤ s then .Positive s.toNat else .Negative (-s).toNat

/-- Modelled from the spec: error kinds of the bounded-math helpers. -/
inductive BoundedMathError where
  | Overflow
  | Underflow
deriving DecidableEq

/-- Error taxonomy of the aggregator state machine (spec section 4.3.5):
    code-invariant errors, extension errors, and speculative invalidation. -/
inductive PartialVMError where
  | codeInvariant
  | extension
  | speculative
deriving DecidableEq

/-- Modelled from the spec: checked arithmetic over values bounded by
    max_value (bounded_math.rs is not part of the provided sources). -/
structure BoundedMath where
  max_value : Nat

/-- Modelled from the spec: unsigned_add errs when the sum exceeds max_value. -/
def BoundedMath.unsigned_add (m : BoundedMath) (a b : Nat) :
    Except BoundedMathError Nat :=
  if m.max_value < a + b then .error .Overflow else .ok (a + b)

/-- Modelled from the spec: unsigned_subtract errs when b exceeds a. -/
def BoundedMath.unsigned_subtract (m : BoundedMath) (a b : Nat) :
    Except BoundedMathError Nat :=
  if a < b then .error .Underflow else .ok (a - b)

/-- Modelled from the spec: a + d constrained to the range 0..max_value. -/
def BoundedMath.unsigned_add_delta (m : BoundedMath) (a : Nat) (d : SignedU128) :
    Except BoundedMathError Nat :=
  if (m.max_value : Int) < (a : Int) + d.toInt then .error .Overflow
  else if (a : Int) + d.toInt < 0 then .error .Underflow
  else .ok ((a : Int) + d.toInt).toNat

/-- Modelled from the spec: signed addition, erring when the magnitude of the
    result exceeds max_value. -/
def BoundedMath.signed_add (m : BoundedMath) (a b : SignedU128) :
    Except BoundedMathError SignedU128 :=
  if 0 ≤ a.toInt + b.toInt then
    if (m.max_value : Int) < a.toInt + b.toInt then .error .Overflow
    else .ok (.Positive (a.toInt + b.toInt).toNat)
  else
    if (m.max_value : Int) < -(a.toInt + b.toInt) then .error .Underflow
    else .ok (.Negative (-(a.toInt + b.toInt)).toNat)

/-- Modelled from the spec: discard an overflow error, keep other outcomes. -/
def ok_overflow {α : Type} : Except BoundedMathError α → Except BoundedMathError (Option α)
  | .ok a => .ok (some a)
  | .error .Overflow => .ok none
  | .error e => .error e

/-- Modelled from the spec: a math error at an expect_ok site is a
    code-invariant error. -/
def expect_ok {α : Type} : Except BoundedMathError α → Except PartialVMError α
  | .ok a => .ok a
  | .error _ => .error .codeInvariant

/-- Modelled from the spec: the four-scalar delta history (delta_math.rs is not
    part of the provided sources). -/
structure DeltaHistory where
  max_achieved_positive_delta : Nat
  min_achieved_negative_delta : Nat
  min_overflow_positive_delta : Option Nat
  max_underflow_negative_delta : Option Nat
deriving DecidableEq

/-- Fresh, empty history. -/
def DeltaHistory.new : DeltaHistory := ⟨0, 0, none, none⟩

/-- Modelled from the spec: a history with no recorded deltas. -/
def DeltaHistory.is_empty (h : DeltaHistory) : Bool :=
  h.max_achieved_positive_delta == 0 && h.min_achieved_negative_delta == 0 &&
    h.min_overflow_positive_delta.isNone && h.max_underflow_negative_delta.isNone

/-- Modelled from the spec: record_success updates the achieved extrema. -/
def DeltaHistory.record_success (h : DeltaHistory) (new_delta : SignedU128) : DeltaHistory :=
  match new_delta with
  | .Positive v =>
    if h.max_achieved_positive_delta < v then { h with max_achieved_positive_delta := v } else h
  | .Negative v =>
    if h.min_achieved_negative_delta < v then { h with min_achieved_negative_delta := v } else h

/-- Modelled from the spec: record_overflow keeps the smallest overflowing
    positive delta. -/
def DeltaHistory.record_overflow (h : DeltaHistory) (overflow_delta : Nat) : DeltaHistory :=
  match h.min_overflow_positive_delta with
  | none => { h with min_overflow_positive_delta := some overflow_delta }
  | some cur => { h with min_overflow_positive_delta := some (min cur overflow_delta) }

/-- Modelled from the spec: record_underflow keeps the largest underflowing
    negative delta. -/
def DeltaHistory.record_underflow (h : DeltaHistory) (underflow_delta : Nat) : DeltaHistory :=
  match h.max_underflow_negative_delta with
  | none => { h with max_underflow_negative_delta := some underflow_delta }
  | some cur => { h with max_underflow_negative_delta := some (max cur underflow_delta) }

/-- Modelled from the spec: a base value is valid iff all four history bounds
    hold, otherwise the error means speculative invalidation. -/
def DeltaHistory.validate_against_base_value (h : DeltaHistory) (base_value max_value : Nat) :
    Except PartialVMError Unit :=
  if (decide (base_value + h.max_achieved_positive_delta ≤ max_value)
      && decide (h.min_achieved_negative_delta ≤ base_value)
      && h.min_overflow_positive_delta.all (fun o => decide (max_value < base_value + o))
      && h.max_underflow_negative_delta.all (fun u => decide (base_value < u))) = true
  then .ok () else .error .speculative

/-- Describes how the speculative_start_value was obtained. -/
inductive SpeculativeStartValue where
  | Unset
  | LastCommittedValue (v : Nat)
  | AggregatedValue (v : Nat)
deriving DecidableEq

/-- Accessor that is valid on any initialized speculative value. -/
def SpeculativeStartValue.get_any_value : SpeculativeStartValue → Except PartialVMError Nat
  | .Unset => .error .codeInvariant
  | .LastCommittedValue v => .ok v
  | .AggregatedValue v => .ok v

/-- Describes the state of each aggregator instance. -/
inductive AggregatorState where
  | Data (value : Nat)
  | Delta (speculative_start_value : SpeculativeStartValue) (delta : SignedU128)
      (history : DeltaHistory)
deriving DecidableEq

/-- Aggregator identifiers: V1 is addressed by a state key, V2 by a numeric id.
    State keys and AggregatorIDs are modelled as Nat. -/
inductive AggregatorVersionedID where
  | V1 : Nat → AggregatorVersionedID
  | V2 : Nat → AggregatorVersionedID
deriving DecidableEq

/-- Read modes of the resolver. -/
inductive AggregatorReadMode where
  | LastCommitted
  | Aggregated
deriving DecidableEq

/-- Resolver interface consumed by the aggregator: a V1 read may report a
    deleted aggregator (none); a V2 read returns a value or fails. -/
structure AggregatorResolver where
  get_aggregator_v1_value : Nat → AggregatorReadMode → Except Unit (Option Nat)
  get_aggregator_v2_value : Nat → AggregatorReadMode → Except Unit Nat

/-- The match on the versioned id performed by both read paths of the source. -/
def resolverRead (resolver : AggregatorResolver) (id : AggregatorVersionedID)
    (mode : AggregatorReadMode) : Except Unit (Option Nat) :=
  match id with
  | .V1 state_key => resolver.get_aggregator_v1_value state_key mode
  | .V2 i => (resolver.get_aggregator_v2_value i mode).map some

/-- Internal aggregator data structure. -/
structure Aggregator where
  id : AggregatorVersionedID
  max_value : Nat
  state : AggregatorState
deriving DecidableEq

/-- Cheap read: initialize the speculative start value from the last committed
    value when it is still Unset.  Mirrors
    Aggregator::read_last_committed_aggregator_value. -/
def Aggregator.read_last_committed_aggregator_value (a : Aggregator)
    (resolver : AggregatorResolver) : Except PartialVMError Unit × Aggregator :=
  match a.state with
  | .Delta sv delta history =>
    match sv with
    | .Unset =>
      if delta ≠ SignedU128.Positive 0 ∨ history.is_empty = false then
        (.error .codeInvariant, a)
      else
        match resolverRead resolver a.id .LastCommitted with
        | .error _ => (.error .extension, a)
        | .ok none => (.error .extension, a)
        | .ok (some value_from_storage) =>
          (.ok (), { a with state := .Delta (.LastCommittedValue value_from_storage) delta history })
    | _ => (.ok (), a)
  | _ => (.ok (), a)

/-- Mirrors Aggregator::try_add. -/
def Aggregator.try_add (a : Aggregator) (resolver : AggregatorResolver) (input : Nat) :
    Except PartialVMError Bool × Aggregator :=
  if a.max_value < input then (.ok false, a)
  else
    let math : BoundedMath := ⟨a.max_value⟩
    match a.read_last_committed_aggregator_value resolver with
    | (.error e, a1) => (.error e, a1)
    | (.ok _, a1) =>
      match a1.state with
      | .Data value =>
        match math.unsigned_add value input with
        | .ok new_value => (.ok true, { a1 with state := .Data new_value })
        | .error _ => (.ok false, a1)
      | .Delta sv delta history =>
        match sv.get_any_value with
        | .error e => (.error e, a1)
        | .ok start =>
          match expect_ok (math.unsigned_add_delta start delta) with
          | .error e => (.error e, a1)
          | .ok cur_value =>
            match math.unsigned_add cur_value input with
            | .error _ =>
              match expect_ok (ok_overflow (math.unsigned_add_delta input delta)) with
              | .error e => (.error e, a1)
              | .ok none => (.ok false, a1)
              | .ok (some overflow_delta) =>
                (.ok false, { a1 with state := .Delta sv delta (history.record_overflow overflow_delta) })
            | .ok _ =>
              match expect_ok (math.signed_add delta (.Positive input)) with
              | .error e => (.error e, a1)
              | .ok new_delta =>
                (.ok true, { a1 with state := .Delta sv new_delta (history.record_success new_delta) })

/-- Mirrors Aggregator::try_sub. -/
def Aggregator.try_sub (a : Aggregator) (resolver : AggregatorResolver) (input : Nat) :
    Except PartialVMError Bool × Aggregator :=
  if a.max_value < input then (.ok false, a)
  else
    let math : BoundedMath := ⟨a.max_value⟩
    match a.read_last_committed_aggregator_value resolver with
    | (.error e, a1) => (.error e, a1)
    | (.ok _, a1) =>
      match a1.state with
      | .Data value =>
        match math.unsigned_subtract value input with
        | .ok new_value => (.ok true, { a1 with state := .Data new_value })
        | .error _ => (.ok false, a1)
      | .Delta sv delta history =>
        match sv.get_any_value with
        | .error e => (.error e, a1)
        | .ok start =>
          match expect_ok (math.unsigned_add_delta start delta) with
          | .error e => (.error e, a1)
          | .ok cur_value =>
            if cur_value < input then
              match expect_ok (ok_overflow (math.unsigned_add_delta input delta.minus)) with
              | .error e => (.error e, a1)
              | .ok none => (.ok false, a1)
              | .ok (some underflow_delta) =>
                (.ok false, { a1 with state := .Delta sv delta (history.record_underflow underflow_delta) })
            else
              match expect_ok (math.signed_add delta (.Negative input)) with
              | .error e => (.error e, a1)
              | .ok new_delta =>
                (.ok true, { a1 with state := .Delta sv new_delta (history.record_success new_delta) })

/-- Expensive read: mirrors Aggregator::read_most_recent_aggregator_value.
    A math error escaping through the question-mark operator in the
    AggregatedValue branch is modelled as a speculative error. -/
def Aggregator.read_most_recent_aggregator_value (a : Aggregator)
    (resolver : AggregatorResolver) : Except PartialVMError Nat × Aggregator :=
  match a.state with
  | .Data value => (.ok value, a)
  | .Delta sv delta history =>
    let math : BoundedMath := ⟨a.max_value⟩
    match sv with
    | .AggregatedValue start_value =>
      match math.unsigned_add_delta start_value delta with
      | .ok r => (.ok r, a)
      | .error _ => (.error .speculative, a)
    | _ =>
      match resolverRead resolver a.id .Aggregated with
      | .error _ => (.error .extension, a)
      | .ok none => (.error .extension, a)
      | .ok (some value_from_storage) =>
        match history.validate_against_base_value value_from_storage a.max_value with
        | .error e => (.error e, a)
        | .ok _ =>
          match expect_ok (math.unsigned_add_delta value_from_storage delta) with
          | .error e => (.error e, a)
          | .ok result =>
            (.ok result, { a with state := .Delta (.AggregatedValue value_from_storage) delta history })

/-- Snapshot values: integers or byte strings. -/
inductive SnapshotValue where
  | Integer (v : Nat)
  | String (bytes : List Nat)
deriving DecidableEq

/-- Formula applied to a snapshot base. -/
inductive DerivedFormula where
  | Identity
  | Concat (pre suf : List Nat)
deriving DecidableEq

/-- State of an aggregator snapshot. -/
inductive AggregatorSnapshotState where
  | Data (value : SnapshotValue)
  | Delta (base_aggregator : Nat) (delta : SignedU128) (formula : DerivedFormula)
  | Reference (speculative_value : SnapshotValue)
deriving DecidableEq

/-- An aggregator snapshot: id plus immutable state. -/
structure AggregatorSnapshot where
  id : Nat
  state : AggregatorSnapshotState
deriving DecidableEq

/-- Association-list model of an ordered map lookup. -/
def mapGet {κ ν : Type} [DecidableEq κ] (k : κ) : List (κ × ν) → Option ν
  | [] => none
  | (k1, v) :: rest => if k = k1 then some v else mapGet k rest

/-- Association-list model of an ordered map insert (replace if present). -/
def mapInsert {κ ν : Type} [DecidableEq κ] (k : κ) (v : ν) : List (κ × ν) → List (κ × ν)
  | [] => [(k, v)]
  | (k1, v1) :: rest =>
    if k = k1 then (k, v) :: rest else (k1, v1) :: mapInsert k v rest

/-- Association-list model of an ordered map removal. -/
def mapRemove {κ ν : Type} [DecidableEq κ] (k : κ) : List (κ × ν) → List (κ × ν)
  | [] => []
  | (k1, v1) :: rest =>
    if k = k1 then mapRemove k rest else (k1, v1) :: mapRemove k rest

/-- List model of an ordered set membership test. -/
def setContains {κ : Type} [DecidableEq κ] (k : κ) : List κ → Bool
  | [] => false
  | k1 :: rest => if k = k1 then true else setContains k rest

/-- List model of an ordered set insert. -/
def setInsert {κ : Type} [DecidableEq κ] (k : κ) (s : List κ) : List κ :=
  if setContains k s then s else k :: s

/-- List model of an ordered set removal. -/
def setRemove {κ : Type} [DecidableEq κ] (k : κ) : List κ → List κ
  | [] => []
  | k1 :: rest => if k = k1 then setRemove k rest else k1 :: setRemove k rest

/-- Per-transaction registry of aggregators, mirrors struct AggregatorData. -/
structure AggregatorData where
  new_aggregators : List AggregatorVersionedID
  destroyed_aggregators : List Nat
  aggregators : List (AggregatorVersionedID × Aggregator)
  aggregator_snapshots : List (Nat × AggregatorSnapshot)
  id_counter : Nat
deriving DecidableEq

/-- Mirrors AggregatorData::get_aggregator.  The source returns the entry for
    id, inserting a fresh Unset delta-mode aggregator when absent; the
    PartialVMResult it wraps the reference in is always Ok. -/
def AggregatorData.get_aggregator (d : AggregatorData) (id : AggregatorVersionedID)
    (max_value : Nat) : Aggregator × AggregatorData :=
  match mapGet id d.aggregators with
  | some aggregator => (aggregator, d)
  | none =>
    let aggregator : Aggregator :=
      ⟨id, max_value, .Delta .Unset (.Positive 0) DeltaHistory.new⟩
    (aggregator, { d with aggregators := mapInsert id aggregator d.aggregators })

/-- Mirrors AggregatorData::create_new_aggregator. -/
def AggregatorData.create_new_aggregator (d : AggregatorData)
    (id : AggregatorVersionedID) (max_value : Nat) : AggregatorData :=
  { d with
    aggregators := mapInsert id ⟨id, max_value, .Data 0⟩ d.aggregators,
    new_aggregators := setInsert id d.new_aggregators }

/-- Mirrors AggregatorData::remove_aggregator_v1; the assert_matches on a V2
    id is modelled as none (panic). -/
def AggregatorData.remove_aggregator_v1 (d : AggregatorData)
    (id : AggregatorVersionedID) : Option AggregatorData :=
  match id with
  | .V2 _ => none
  | .V1 state_key =>
    let d1 := { d with aggregators := mapRemove id d.aggregators }
    if setContains id d1.new_aggregators then
      some { d1 with new_aggregators := setRemove id d1.new_aggregators }
    else
      some { d1 with destroyed_aggregators := setInsert state_key d1.destroyed_aggregators }

/-- Mirrors AggregatorData::generate_id (pre-increment then emit). -/
def AggregatorData.generate_id (d : AggregatorData) : Nat × AggregatorData :=
  (d.id_counter + 1, { d with id_counter := d.id_counter + 1 })

/-- Mirrors AggregatorData::snapshot. -/
def AggregatorData.snapshot (d : AggregatorData) (id : Nat) :
    Except PartialVMError Nat × AggregatorData :=
  let p := d.generate_id
  let snapshot_id := p.1
  let d1 := p.2
  match mapGet (.V2 id) d1.aggregators with
  | none => (.error .codeInvariant, d1)
  | some aggregator =>
    let snapshot_state : AggregatorSnapshotState :=
      match aggregator.state with
      | .Data value => .Data (.Integer value)
      | .Delta _ delta _ => .Delta id delta .Identity
    (.ok snapshot_id, { d1 with aggregator_snapshots := mapInsert snapshot_id ⟨snapshot_id, snapshot_state⟩ d1.aggregator_snapshots })

/-- Operations driving the aggregator state machine in claim C2. -/
inductive AggOp where
  | add (input : Nat)
  | sub (input : Nat)
deriving DecidableEq

/-- Input carried by an operation. -/
def AggOp.inputOf : AggOp → Nat
  | .add i => i
  | .sub i => i

/-- Apply one operation. -/
def Aggregator.applyOp (a : Aggregator) (resolver : AggregatorResolver) :
    AggOp → Except PartialVMError Bool × Aggregator
  | .add i => a.try_add resolver i
  | .sub i => a.try_sub resolver i

/-- Run a sequence of operations, threading the (possibly error-mutated)
    aggregator state exactly as the Rust methods mutate self. -/
def Aggregator.runOps (a : Aggregator) (resolver : AggregatorResolver) :
    List AggOp → Aggregator
  | [] => a
  | op :: ops => ((a.applyOp resolver op).2).runOps resolver ops

/-- A resolver never returning values (models absent storage). -/
def nullResolver : AggregatorResolver :=
  ⟨fun _ _ => .error (), fun _ _ => .error ()⟩

/-- A resolver returning the constant v for every read. -/
def constResolver (v : Nat) : AggregatorResolver :=
  ⟨fun _ _ => .ok (some v), fun _ _ => .ok v⟩

/-- Iterate generate_id, collecting the emitted ids in order. -/
def genIds : AggregatorData → Nat → List Nat × AggregatorData
  | d, 0 => ([], d)
  | d, n + 1 =>
    let p := d.generate_id
    let q := genIds p.2 n
    (p.1 :: q.1, q.2)

/-- Inductive invariant of a delta-mode aggregator whose speculative start
    value is s: the history bounds both the base value and the running delta. -/
def deltaInv (mv s : Nat) (δ : SignedU128) (h : DeltaHistory) : Prop :=
  s + h.max_achieved_positive_delta ≤ mv ∧
  h.min_achieved_negative_delta ≤ s ∧
  -(h.min_achieved_negative_delta : Int) ≤ δ.toInt ∧
  δ.toInt ≤ (h.max_achieved_positive_delta : Int) ∧
  (∀ o ∈ h.min_overflow_positive_delta, mv < s + o) ∧
  (∀ u ∈ h.max_underflow_negative_delta, s < u)

/-- Whole-aggregator invariant used for the reachability claim. -/
def aggInv (a : Aggregator) : Prop :=
  match a.state with
  | .Data _ => True
  | .Delta .Unset δ h => δ = .Positive 0 ∧ h = DeltaHistory.new
  | .Delta (.LastCommittedValue s) δ h => deltaInv a.max_value s δ h
  | .Delta (.AggregatedValue s) δ h => deltaInv a.max_value s δ h

/-- The resolver serves last-committed reads of this id only with values in
    the range 0..mv. -/
def resolverLCInRange (r : AggregatorResolver) (id : AggregatorVersionedID) (mv : Nat) : Prop :=
  ∀ v, resolverRead r id .LastCommitted = .ok (some v) → v ≤ mv

/-- Fixture registry used by concrete witnesses. -/
def fixtureData : AggregatorData :=
  ⟨[.V1 7], [3],
   [(.V1 7, ⟨.V1 7, 100, .Data 42⟩),
    (.V2 9, ⟨.V2 9, 50, .Delta .Unset (.Positive 0) DeltaHistory.new⟩)],
   [], 10⟩

/-- Fixture aggregator in data mode with max_value 5. -/
def dataAgg5 : Aggregator := ⟨.V1 0, 5, .Data 0⟩

/-- Fixture aggregator in uninitialized delta mode with max_value 10. -/
def unsetAgg10 : Aggregator := ⟨.V1 0, 10, .Delta .Unset (.Positive 0) DeltaHistory.new⟩

/-- Fixture aggregator in delta mode with an initialized last-committed start. -/
def lcAgg10 : Aggregator := ⟨.V1 0, 10, .Delta (.LastCommittedValue 3) (.Positive 2) DeltaHistory.new⟩

/-- Fixture aggregator whose out-of-range start value 2 exceeds max_value 1. -/
def badAgg1 : Aggregator := ⟨.V1 0, 1, .Delta (.LastCommittedValue 2) (.Positive 0) DeltaHistory.new⟩

/-- Fixture aggregator in uninitialized delta mode with max_value 1. -/
def unsetAgg1 : Aggregator := ⟨.V1 0, 1, .Delta .Unset (.Positive 0) DeltaHistory.new⟩

/-- Fixture aggregator whose delta 50 is not bounded by its empty history. -/
def overAgg10 : Aggregator := ⟨.V2 0, 10, .Delta .Unset (.Positive 50) DeltaHistory.new⟩

/-! Helper lemmas. -/

theorem rlc_data_noop (a : Aggregator) (r : AggregatorResolver) (v : Nat)
    (hs : a.state = .Data v) :
    a.read_last_committed_aggregator_value r = (.ok (), a) := by
  simp [Aggregator.read_last_committed_aggregator_value, hs]

theorem rlc_initialized_noop (a : Aggregator) (r : AggregatorResolver)
    (sv : SpeculativeStartValue) (δ : SignedU128) (h : DeltaHistory)
    (hs : a.state = .Delta sv δ h) (hsv : sv ≠ .Unset) :
    a.read_last_committed_aggregator_value r = (.ok (), a) := by
  cases sv with
  | Unset => exact absurd rfl hsv
  | LastCommittedValue w =>
    simp [Aggregator.read_last_committed_aggregator_value, hs]
  | AggregatedValue w =>
    simp [Aggregator.read_last_committed_aggregator_value, hs]

theorem mapGet_mapRemove {κ ν : Type} [DecidableEq κ] (k : κ) (l : List (κ × ν)) :
    mapGet k (mapRemove k l) = none := by
  induction l with
  | nil => rfl
  | cons p rest ih =>
    by_cases hk : k = p.1
    · simpa [mapRemove, hk] using ih
    · simp [mapRemove, mapGet, hk, ih]

/-! Claim C4. -/

/-- Claim C4: for every aggregator state and every input exceeding max_value,
    try_add and try_sub return Ok(false) and leave the aggregator (state,
    delta, history, speculative start) unchanged; since the equations hold for
    every resolver, the resolver is never consulted. -/
theorem c4_oversized_input_is_noop (a : Aggregator) (r : AggregatorResolver) (input : Nat)
    (hin : a.max_value < input) :
    a.try_add r input = (.ok false, a) ∧ a.try_sub r input = (.ok false, a) := by
  constructor
  · simp only [Aggregator.try_add]
    rw [if_pos hin]
  · simp only [Aggregator.try_sub]
    rw [if_pos hin]

/-- Witness for C4 at a concrete aggregator and input. -/
theorem c4_witness :
    dataAgg5.try_add nullResolver 6 = (.ok false, dataAgg5) ∧
      dataAgg5.try_sub nullResolver 6 = (.ok false, dataAgg5) :=
  c4_oversized_input_is_noop dataAgg5 nullResolver 6 (by decide)

/-! Claim C5. -/

/-- Claim C5: read_last_committed_aggregator_value is a no-op returning Ok on
    a Data state or a Delta state whose start is already set; on Delta-Unset
    with a nonzero delta or nonempty history it is a code-invariant error; on
    Delta-Unset with zero delta and empty history it fetches the last
    committed value b and sets the start to LastCommittedValue(b), and when
    the resolver fails or reports the aggregator deleted it returns an
    extension error with the state unchanged. -/
theorem c5_read_last_committed_behaviour :
    (∀ (a : Aggregator) (r : AggregatorResolver) (v : Nat), a.state = .Data v →
      a.read_last_committed_aggregator_value r = (.ok (), a)) ∧
    (∀ (a : Aggregator) (r : AggregatorResolver) (w : Nat) (δ : SignedU128) (h : DeltaHistory),
      a.state = .Delta (.LastCommittedValue w) δ h ∨
        a.state = .Delta (.AggregatedValue w) δ h →
      a.read_last_committed_aggregator_value r = (.ok (), a)) ∧
    (∀ (a : Aggregator) (r : AggregatorResolver) (δ : SignedU128) (h : DeltaHistory),
      a.state = .Delta .Unset δ h → (δ ≠ .Positive 0 ∨ h.is_empty = false) →
      a.read_last_committed_aggregator_value r = (.error .codeInvariant, a)) ∧
    (∀ (a : Aggregator) (r : AggregatorResolver) (δ : SignedU128) (h : DeltaHistory),
      a.state = .Delta .Unset δ h → δ = .Positive 0 → h.is_empty = true →
      (∀ e, resolverRead r a.id .LastCommitted = .error e →
        a.read_last_committed_aggregator_value r = (.error .extension, a)) ∧
      (resolverRead r a.id .LastCommitted = .ok none →
        a.read_last_committed_aggregator_value r = (.error .extension, a)) ∧
      (∀ b, resolverRead r a.id .LastCommitted = .ok (some b) →
        a.read_last_committed_aggregator_value r =
          (.ok (), { a with state := .Delta (.LastCommittedValue b) δ h }))) := by
  refine ⟨?_, ?_, ?_, ?_⟩
  · exact fun a r v hs => rlc_data_noop a r v hs
  · rintro a r w δ h (hs | hs)
    · exact rlc_initialized_noop a r _ δ h hs (by simp)
    · exact rlc_initialized_noop a r _ δ h hs (by simp)
  · intro a r δ h hs hbad
    simp only [Aggregator.read_last_committed_aggregator_value, hs]
    rw [if_pos hbad]
  · intro a r δ h hs hδ hemp
    have hcond : ¬(δ ≠ SignedU128.Positive 0 ∨ h.is_empty = false) := by
      simp [hδ, hemp]
    refine ⟨?_, ?_, ?_⟩
    · intro e he
      simp only [Aggregator.read_last_committed_aggregator_value, hs]
      rw [if_neg hcond, he]
    · intro he
      simp only [Aggregator.read_last_committed_aggregator_value, hs]
      rw [if_neg hcond, he]
    · intro b hb
      simp only [Aggregator.read_last_committed_aggregator_value, hs]
      rw [if_neg hcond, hb]

/-- Witness for C5: a concrete Unset aggregator is initialized from a
    concrete resolver. -/
theorem c5_witness :
    unsetAgg10.read_last_committed_aggregator_value (constResolver 4) =
      (.ok (), { unsetAgg10 with
        state := .Delta (.LastCommittedValue 4) (.Positive 0) DeltaHistory.new }) :=
  (c5_read_last_committed_behaviour.2.2.2 unsetAgg10 (constResolver 4) (.Positive 0)
    DeltaHistory.new rfl rfl (by decide)).2.2 4 rfl

/-! Claim C6. -/

/-- Claim C6: snapshot(id) on an id registered as a V2 aggregator stores an
    immutable snapshot keyed by the freshly generated id (id_counter + 1) and
    returns that id; a Data source yields a Data(Integer v) snapshot, a Delta
    source yields Delta(base_aggregator = id, delta, Identity); an
    unregistered id yields a code-invariant error. -/
theorem c6_snapshot_behaviour (d : AggregatorData) (id : Nat) :
    (∀ agg v, mapGet (.V2 id) d.aggregators = some agg → agg.state = .Data v →
      d.snapshot id = (.ok (d.id_counter + 1),
        { d with id_counter := d.id_counter + 1,
                 aggregator_snapshots := mapInsert (d.id_counter + 1)
                   ⟨d.id_counter + 1, .Data (.Integer v)⟩ d.aggregator_snapshots })) ∧
    (∀ agg sv δ h, mapGet (.V2 id) d.aggregators = some agg →
      agg.state = .Delta sv δ h →
      d.snapshot id = (.ok (d.id_counter + 1),
        { d with id_counter := d.id_counter + 1,
                 aggregator_snapshots := mapInsert (d.id_counter + 1)
                   ⟨d.id_counter + 1, .Delta id δ .Identity⟩ d.aggregator_snapshots })) ∧
    (mapGet (.V2 id) d.aggregators = none →
      (d.snapshot id).1 = .error .codeInvariant) := by
  refine ⟨?_, ?_, ?_⟩
  · intro agg v hreg hst
    simp only [AggregatorData.snapshot, AggregatorData.generate_id, hreg, hst]
  · intro agg sv δ h hreg hst
    simp only [AggregatorData.snapshot, AggregatorData.generate_id, hreg, hst]
  · intro hnone
    simp only [AggregatorData.snapshot, AggregatorData.generate_id, hnone]

/-- Witness for C6 at a concrete registry holding a delta-mode V2 aggregator. -/
theorem c6_witness :
    fixtureData.snapshot 9 = (.ok 11,
      { fixtureData with
        id_counter := 11,
        aggregator_snapshots := mapInsert 11 ⟨11, .Delta 9 (.Positive 0) .Identity⟩
          fixtureData.aggregator_snapshots }) :=
  (c6_snapshot_behaviour fixtureData 9).2.1
    ⟨.V2 9, 50, .Delta .Unset (.Positive 0) DeltaHistory.new⟩
    .Unset (.Positive 0) DeltaHistory.new (by decide) rfl

/-! Claim C7. -/

/-- Claim C7: remove_aggregator_v1 on a V1 id removes the live map entry; if
    the id was created this transaction it is dropped from new_aggregators and
    destroyed_aggregators is untouched, otherwise the underlying state key is
    added to destroyed_aggregators; a V2 id is rejected (the assertion is
    modelled as none). -/
theorem c7_remove_aggregator_v1_behaviour :
    (∀ (d : AggregatorData) (sk : Nat),
      setContains (AggregatorVersionedID.V1 sk) d.new_aggregators = true →
      d.remove_aggregator_v1 (.V1 sk) = some { d with
        aggregators := mapRemove (.V1 sk) d.aggregators,
        new_aggregators := setRemove (.V1 sk) d.new_aggregators }) ∧
    (∀ (d : AggregatorData) (sk : Nat),
      setContains (AggregatorVersionedID.V1 sk) d.new_aggregators = false →
      d.remove_aggregator_v1 (.V1 sk) = some { d with
        aggregators := mapRemove (.V1 sk) d.aggregators,
        destroyed_aggregators := setInsert sk d.destroyed_aggregators }) ∧
    (∀ (d : AggregatorData) (i : Nat), d.remove_aggregator_v1 (.V2 i) = none) ∧
    (∀ (d : AggregatorData) (sk : Nat) (d2 : AggregatorData),
      d.remove_aggregator_v1 (.V1 sk) = some d2 →
      mapGet (.V1 sk) d2.aggregators = none) := by
  refine ⟨?_, ?_, ?_, ?_⟩
  · intro d sk hmem
    simp [AggregatorData.remove_aggregator_v1, hmem]
  · intro d sk hmem
    simp [AggregatorData.remove_aggregator_v1, hmem]
  · intro d i
    rfl
  · intro d sk d2 hrm
    simp only [AggregatorData.remove_aggregator_v1] at hrm
    by_cases hmem : setContains (AggregatorVersionedID.V1 sk) d.new_aggregators = true
    · rw [if_pos hmem] at hrm
      cases hrm
      exact mapGet_mapRemove _ _
    · rw [if_neg hmem] at hrm
      cases hrm
      exact mapGet_mapRemove _ _

/-- Witness for C7 at a concrete registry whose V1 entry was created in the
    current transaction. -/
theorem c7_witness :
    fixtureData.remove_aggregator_v1 (.V1 7) = some { fixtureData with
      aggregators := mapRemove (.V1 7) fixtureData.aggregators,
      new_aggregators := setRemove (.V1 7) fixtureData.new_aggregators } :=
  c7_remove_aggregator_v1_behaviour.1 fixtureData 7 (by decide)

/-! Claim C8. -/

/-- Claim C8: generate_id increments id_counter by exactly one and returns the
    incremented value; n successive calls from seed c return the strictly
    increasing ids c+1, ..., c+n (List.range' (c+1) n), all distinct, and
    leave the counter at c+n. -/
theorem c8_generate_id_monotonic (d : AggregatorData) (n : Nat) :
    d.generate_id = (d.id_counter + 1, { d with id_counter := d.id_counter + 1 }) ∧
    (genIds d n).1 = List.range' (d.id_counter + 1) n ∧
    (genIds d n).2.id_counter = d.id_counter + n ∧
    List.Pairwise (fun x y => x < y) (genIds d n).1 := by
  have key : ∀ (m : Nat) (e : AggregatorData),
      (genIds e m).1 = List.range' (e.id_counter + 1) m ∧
      (genIds e m).2.id_counter = e.id_counter + m := by
    intro m
    induction m with
    | zero => intro e; exact ⟨rfl, rfl⟩
    | succ k ih =>
      intro e
      have h := ih { e with id_counter := e.id_counter + 1 }
      refine ⟨?_, ?_⟩
      · simp only [genIds, AggregatorData.generate_id, h.1, List.range'_succ]
      · simp only [genIds, AggregatorData.generate_id, h.2]
        omega
  refine ⟨rfl, (key n d).1, (key n d).2, ?_⟩
  rw [(key n d).1]
  have : List.Pairwise (· < ·) (List.range' (d.id_counter + 1) n) :=
    List.pairwise_lt_range' _ _
  exact this

/-! Claim C9. -/

/-- Claim C9: get_aggregator on an id already present in the registry returns
    the stored aggregator unchanged for every max_value argument, leaving the
    registry untouched; the max_value argument is ignored. -/
theorem c9_get_aggregator_existing (d : AggregatorData) (id : AggregatorVersionedID)
    (mv mv2 : Nat) (agg : Aggregator) (hreg : mapGet id d.aggregators = some agg) :
    d.get_aggregator id mv = (agg, d) ∧
      d.get_aggregator id mv2 = d.get_aggregator id mv := by
  constructor
  · simp only [AggregatorData.get_aggregator, hreg]
  · simp only [AggregatorData.get_aggregator, hreg]

/-- Witness for C9: a stored aggregator with max_value 100 is returned intact
    even when the caller passes max_value 1. -/
theorem c9_witness :
    fixtureData.get_aggregator (.V1 7) 1 = (⟨.V1 7, 100, .Data 42⟩, fixtureData) ∧
      fixtureData.get_aggregator (.V1 7) 999 = fixtureData.get_aggregator (.V1 7) 1 :=
  c9_get_aggregator_existing fixtureData (.V1 7) 1 999 ⟨.V1 7, 100, .Data 42⟩ (by decide)

/-! Claim C10. -/

/-- Claim C10: a failed snapshot call (unregistered id) leaves the aggregators
    and snapshots maps unchanged but has already consumed an id: id_counter is
    incremented by one, so snapshot is not atomic on error. -/
theorem c10_snapshot_failure_increments_counter (d : AggregatorData) (id : Nat)
    (hnone : mapGet (.V2 id) d.aggregators = none) :
    d.snapshot id = (.error .codeInvariant, { d with id_counter := d.id_counter + 1 }) ∧
    (d.snapshot id).2.aggregators = d.aggregators ∧
    (d.snapshot id).2.aggregator_snapshots = d.aggregator_snapshots ∧
    (d.snapshot id).2.id_counter = d.id_counter + 1 := by
  have h : d.snapshot id = (.error .codeInvariant, { d with id_counter := d.id_counter + 1 }) := by
    simp only [AggregatorData.snapshot, AggregatorData.generate_id, hnone]
  exact ⟨h, by rw [h], by rw [h], by rw [h]⟩

/-- Witness for C10 at a concrete unregistered id. -/
theorem c10_witness :
    fixtureData.snapshot 3 =
      (.error .codeInvariant, { fixtureData with id_counter := 11 }) :=
  (c10_snapshot_failure_increments_counter fixtureData 3 (by decide)).1

/-! Arithmetic characterizations of the bounded-math helpers. -/

theorem mk_max_value (mv : Nat) : (BoundedMath.mk mv).max_value = mv := rfl

theorem toInt_Positive (v : Nat) : (SignedU128.Positive v).toInt = (v : Int) := rfl

theorem toInt_Negative (v : Nat) : (SignedU128.Negative v).toInt = -(v : Int) := rfl

theorem unsigned_add_ok (m : BoundedMath) (a b : Nat) (h : a + b ≤ m.max_value) :
    m.unsigned_add a b = .ok (a + b) := by
  unfold BoundedMath.unsigned_add
  rw [if_neg (by omega)]

theorem unsigned_add_err (m : BoundedMath) (a b : Nat) (h : m.max_value < a + b) :
    m.unsigned_add a b = .error .Overflow := by
  unfold BoundedMath.unsigned_add
  rw [if_pos h]

theorem unsigned_add_delta_ok (m : BoundedMath) (a : Nat) (d : SignedU128)
    (h0 : 0 ≤ (a : Int) + d.toInt) (h1 : (a : Int) + d.toInt ≤ m.max_value) :
    m.unsigned_add_delta a d = .ok ((a : Int) + d.toInt).toNat := by
  unfold BoundedMath.unsigned_add_delta
  rw [if_neg (by omega), if_neg (by omega)]

theorem unsigned_add_delta_overflow (m : BoundedMath) (a : Nat) (d : SignedU128)
    (h1 : (m.max_value : Int) < (a : Int) + d.toInt) :
    m.unsigned_add_delta a d = .error .Overflow := by
  unfold BoundedMath.unsigned_add_delta
  rw [if_pos (by omega)]

theorem signed_add_ok (m : BoundedMath) (a b : SignedU128)
    (hlo : -(m.max_value : Int) ≤ a.toInt + b.toInt)
    (hhi : a.toInt + b.toInt ≤ m.max_value) :
    m.signed_add a b = .ok (.ofInt (a.toInt + b.toInt)) := by
  unfold BoundedMath.signed_add SignedU128.ofInt
  by_cases h : 0 ≤ a.toInt + b.toInt
  · rw [if_pos h, if_neg (by omega), if_pos h]
  · rw [if_neg h, if_neg (by omega), if_neg h]

theorem toInt_ofInt (s : Int) : (SignedU128.ofInt s).toInt = s := by
  unfold SignedU128.ofInt
  by_cases h : 0 ≤ s
  · rw [if_pos h]; simp [SignedU128.toInt]; omega
  · rw [if_neg h]; simp [SignedU128.toInt]; omega

/-! Characterization of try_add and try_sub in delta mode with an initialized
    start value, under the range assumptions that make the current value
    computable. -/

theorem try_add_delta_char (a : Aggregator) (r : AggregatorResolver) (input : Nat)
    (sv : SpeculativeStartValue) (δ : SignedU128) (h : DeltaHistory) (s : Nat)
    (hs : a.state = .Delta sv δ h)
    (hget : sv.get_any_value = .ok s)
    (hin : input ≤ a.max_value)
    (hsmv : s ≤ a.max_value)
    (h0 : 0 ≤ (s : Int) + δ.toInt)
    (h1 : (s : Int) + δ.toInt ≤ a.max_value) :
    a.try_add r input =
      if (s : Int) + δ.toInt + input ≤ a.max_value then
        (.ok true, { a with state := .Delta sv (.ofInt (δ.toInt + input)) (h.record_success (.ofInt (δ.toInt + input))) })
      else if (input : Int) + δ.toInt ≤ a.max_value then
        (.ok false, { a with state := .Delta sv δ (h.record_overflow ((input : Int) + δ.toInt).toNat) })
      else (.ok false, a) := by
  have hsv : sv ≠ .Unset := by
    intro he
    rw [he] at hget
    exact absurd hget (by simp [SpeculativeStartValue.get_any_value])
  have hrlc := rlc_initialized_noop a r sv δ h hs hsv
  have hcur : BoundedMath.unsigned_add_delta ⟨a.max_value⟩ s δ =
      .ok ((s : Int) + δ.toInt).toNat := unsigned_add_delta_ok _ s δ h0 h1
  simp only [Aggregator.try_add, hrlc, hs, hget, hcur, expect_ok]
  rw [if_neg (by omega)]
  by_cases hc : (s : Int) + δ.toInt + input ≤ a.max_value
  · rw [if_pos hc]
    have hadd : BoundedMath.unsigned_add ⟨a.max_value⟩ ((s : Int) + δ.toInt).toNat input =
        .ok (((s : Int) + δ.toInt).toNat + input) :=
      unsigned_add_ok _ _ _ (by simp only [mk_max_value]; omega)
    have hsigned : BoundedMath.signed_add ⟨a.max_value⟩ δ (.Positive input) =
        .ok (.ofInt (δ.toInt + input)) := by
      have hk := signed_add_ok ⟨a.max_value⟩ δ (.Positive input)
        (by simp only [mk_max_value, toInt_Positive]; omega)
        (by simp only [mk_max_value, toInt_Positive]; omega)
      simpa only [toInt_Positive] using hk
    simp only [hadd, hsigned, expect_ok]
  · rw [if_neg hc]
    have hadd : BoundedMath.unsigned_add ⟨a.max_value⟩ ((s : Int) + δ.toInt).toNat input =
        .error .Overflow := unsigned_add_err _ _ _ (by simp only [mk_max_value]; omega)
    by_cases hov : (input : Int) + δ.toInt ≤ a.max_value
    · rw [if_pos hov]
      have hoverflow : BoundedMath.unsigned_add_delta ⟨a.max_value⟩ input δ =
          .ok ((input : Int) + δ.toInt).toNat := unsigned_add_delta_ok _ input δ (by omega) hov
      simp only [hadd, hoverflow, ok_overflow, expect_ok]
    · rw [if_neg hov]
      have hoverflow : BoundedMath.unsigned_add_delta ⟨a.max_value⟩ input δ =
          .error .Overflow := unsigned_add_delta_overflow _ input δ (by simp only [mk_max_value]; omega)
      simp only [hadd, hoverflow, ok_overflow, expect_ok]

theorem toInt_minus (d : SignedU128) : d.minus.toInt = -d.toInt := by
  cases d <;> simp [SignedU128.minus, toInt_Positive, toInt_Negative]

theorem try_sub_delta_char (a : Aggregator) (r : AggregatorResolver) (input : Nat)
    (sv : SpeculativeStartValue) (δ : SignedU128) (h : DeltaHistory) (s : Nat)
    (hs : a.state = .Delta sv δ h)
    (hget : sv.get_any_value = .ok s)
    (hin : input ≤ a.max_value)
    (hsmv : s ≤ a.max_value)
    (h0 : 0 ≤ (s : Int) + δ.toInt)
    (h1 : (s : Int) + δ.toInt ≤ a.max_value) :
    a.try_sub r input =
      if (s : Int) + δ.toInt < input then
        if (input : Int) - δ.toInt ≤ a.max_value then
          (.ok false, { a with state := .Delta sv δ (h.record_underflow ((input : Int) - δ.toInt).toNat) })
        else (.ok false, a)
      else
        (.ok true, { a with state := .Delta sv (.ofInt (δ.toInt - input)) (h.record_success (.ofInt (δ.toInt - input))) }) := by
  have hsv : sv ≠ .Unset := by
    intro he
    rw [he] at hget
    exact absurd hget (by simp [SpeculativeStartValue.get_any_value])
  have hrlc := rlc_initialized_noop a r sv δ h hs hsv
  have hcur : BoundedMath.unsigned_add_delta ⟨a.max_value⟩ s δ =
      .ok ((s : Int) + δ.toInt).toNat := unsigned_add_delta_ok _ s δ h0 h1
  simp only [Aggregator.try_sub, hrlc, hs, hget, hcur, expect_ok]
  rw [if_neg (by omega)]
  by_cases hc : (s : Int) + δ.toInt < input
  · rw [if_pos hc, if_pos (show ((s : Int) + δ.toInt).toNat < input by omega)]
    by_cases hun : (input : Int) - δ.toInt ≤ a.max_value
    · rw [if_pos hun]
      have hunder : BoundedMath.unsigned_add_delta ⟨a.max_value⟩ input δ.minus =
          .ok ((input : Int) - δ.toInt).toNat := by
        have hk := unsigned_add_delta_ok ⟨a.max_value⟩ input δ.minus
          (by simp only [toInt_minus]; omega)
          (by simp only [mk_max_value, toInt_minus]; omega)
        simpa only [toInt_minus, Int.sub_eq_add_neg] using hk
      simp only [hunder, ok_overflow, expect_ok]
    · rw [if_neg hun]
      have hunder : BoundedMath.unsigned_add_delta ⟨a.max_value⟩ input δ.minus =
          .error .Overflow := by
        apply unsigned_add_delta_overflow
        simp only [mk_max_value, toInt_minus]
        omega
      simp only [hunder, ok_overflow, expect_ok]
  · rw [if_neg hc, if_neg (show ¬(((s : Int) + δ.toInt).toNat < input) by omega)]
    have hsigned : BoundedMath.signed_add ⟨a.max_value⟩ δ (.Negative input) =
        .ok (.ofInt (δ.toInt - input)) := by
      have hk := signed_add_ok ⟨a.max_value⟩ δ (.Negative input)
        (by simp only [mk_max_value, toInt_Negative]; omega)
        (by simp only [mk_max_value, toInt_Negative]; omega)
      simpa only [toInt_Negative, Int.sub_eq_add_neg] using hk
    simp only [hsigned, expect_ok]

/-! Claim C1. -/

/-- Claim C1 (amended): for an aggregator in delta mode with an initialized
    start value s, provided s ≤ max_value and 0 ≤ s + delta ≤ max_value, and
    for input ≤ max_value: if s + delta + input ≤ max_value then try_add sets
    delta to delta + input, records the new delta as a success and returns
    Ok(true); otherwise it returns Ok(false), leaves delta unchanged, and
    records an overflow of magnitude input + delta exactly when that sum
    (automatically non-negative here) is at most max_value.  Mirror for
    try_sub with underflow magnitude input - delta. -/
theorem c1_try_add_try_sub_in_delta_mode (a : Aggregator) (r : AggregatorResolver)
    (input : Nat) (sv : SpeculativeStartValue) (δ : SignedU128) (h : DeltaHistory) (s : Nat)
    (hs : a.state = .Delta sv δ h)
    (hget : sv.get_any_value = .ok s)
    (hin : input ≤ a.max_value)
    (hsmv : s ≤ a.max_value)
    (h0 : 0 ≤ (s : Int) + δ.toInt)
    (h1 : (s : Int) + δ.toInt ≤ a.max_value) :
    (if (s : Int) + δ.toInt + input ≤ a.max_value then
      ∃ d1, d1.toInt = δ.toInt + input ∧
        a.try_add r input = (.ok true, { a with state := .Delta sv d1 (h.record_success d1) })
     else
      a.try_add r input = (.ok false,
        if (input : Int) + δ.toInt ≤ a.max_value then
          { a with state := .Delta sv δ (h.record_overflow ((input : Int) + δ.toInt).toNat) }
        else a)) ∧
    (if (s : Int) + δ.toInt < input then
      a.try_sub r input = (.ok false,
        if (input : Int) - δ.toInt ≤ a.max_value then
          { a with state := .Delta sv δ (h.record_underflow ((input : Int) - δ.toInt).toNat) }
        else a)
     else
      ∃ d1, d1.toInt = δ.toInt - input ∧
        a.try_sub r input = (.ok true, { a with state := .Delta sv d1 (h.record_success d1) })) := by
  have hadd := try_add_delta_char a r input sv δ h s hs hget hin hsmv h0 h1
  have hsub := try_sub_delta_char a r input sv δ h s hs hget hin hsmv h0 h1
  constructor
  · by_cases hc : (s : Int) + δ.toInt + input ≤ a.max_value
    · rw [if_pos hc]
      rw [if_pos hc] at hadd
      exact ⟨.ofInt (δ.toInt + input), toInt_ofInt _, hadd⟩
    · rw [if_neg hc]
      rw [if_neg hc] at hadd
      by_cases hov : (input : Int) + δ.toInt ≤ a.max_value
      · rw [if_pos hov]
        rw [if_pos hov] at hadd
        exact hadd
      · rw [if_neg hov]
        rw [if_neg hov] at hadd
        exact hadd
  · by_cases hc : (s : Int) + δ.toInt < input
    · rw [if_pos hc]
      rw [if_pos hc] at hsub
      by_cases hun : (input : Int) - δ.toInt ≤ a.max_value
      · rw [if_pos hun]
        rw [if_pos hun] at hsub
        exact hsub
      · rw [if_neg hun]
        rw [if_neg hun] at hsub
        exact hsub
    · rw [if_neg hc]
      rw [if_neg hc] at hsub
      exact ⟨.ofInt (δ.toInt - input), toInt_ofInt _, hsub⟩

/-- Witness for C1 at a concrete in-range delta aggregator: both operations
    succeed and record the new delta. -/
theorem c1_witness :
    (∃ d1, d1.toInt = (SignedU128.Positive 2).toInt + (4 : Nat) ∧
      lcAgg10.try_add nullResolver 4 = (.ok true, { lcAgg10 with
        state := .Delta (.LastCommittedValue 3) d1 (DeltaHistory.new.record_success d1) })) ∧
    (∃ d1, d1.toInt = (SignedU128.Positive 2).toInt - (4 : Nat) ∧
      lcAgg10.try_sub nullResolver 4 = (.ok true, { lcAgg10 with
        state := .Delta (.LastCommittedValue 3) d1 (DeltaHistory.new.record_success d1) })) := by
  have hk := c1_try_add_try_sub_in_delta_mode lcAgg10 nullResolver 4 (.LastCommittedValue 3)
    (.Positive 2) DeltaHistory.new 3 rfl rfl (by decide) (by decide) (by decide) (by decide)
  constructor
  · have h1 := hk.1
    rw [if_pos (by decide)] at h1
    exact h1
  · have h2 := hk.2
    rw [if_neg (by decide)] at h2
    exact h2

/-- Counterexample to claim C1 as stated: with max_value 1, an initialized
    start value 2, delta Positive(0) and input 0 we have input ≤ max_value
    and start + delta + input > max_value, so the claim predicts Ok(false)
    with an overflow record, but the code returns a code-invariant error and
    leaves the state unchanged. -/
theorem c1_counterexample :
    (0 : Nat) ≤ badAgg1.max_value ∧
    (badAgg1.max_value : Int) < ((2 : Nat) : Int) + (SignedU128.Positive 0).toInt + ((0 : Nat) : Int) ∧
    badAgg1.try_add nullResolver 0 = (.error .codeInvariant, badAgg1) :=
  ⟨by decide, by decide, rfl⟩

/-! Validation characterization. -/

theorem validate_ok_iff (h : DeltaHistory) (b mv : Nat) :
    h.validate_against_base_value b mv = .ok () ↔
      (b + h.max_achieved_positive_delta ≤ mv ∧ h.min_achieved_negative_delta ≤ b ∧
       (∀ o ∈ h.min_overflow_positive_delta, mv < b + o) ∧
       (∀ u ∈ h.max_underflow_negative_delta, b < u)) := by
  obtain ⟨ma, mi, ov, un⟩ := h
  unfold DeltaHistory.validate_against_base_value
  cases ov <;> cases un <;>
    · simp only [Option.all, Bool.and_eq_true, decide_eq_true_eq]
      split
      · simp_all
      · simp_all

theorem validate_err_of_not (h : DeltaHistory) (b mv : Nat)
    (hnot : ¬(b + h.max_achieved_positive_delta ≤ mv ∧ h.min_achieved_negative_delta ≤ b ∧
       (∀ o ∈ h.min_overflow_positive_delta, mv < b + o) ∧
       (∀ u ∈ h.max_underflow_negative_delta, b < u))) :
    h.validate_against_base_value b mv = .error .speculative := by
  have hne : h.validate_against_base_value b mv ≠ .ok () := fun hk =>
    hnot ((validate_ok_iff h b mv).1 hk)
  unfold DeltaHistory.validate_against_base_value at hne ⊢
  by_cases hcond : (decide (b + h.max_achieved_positive_delta ≤ mv) &&
      decide (h.min_achieved_negative_delta ≤ b) &&
      Option.all (fun o => decide (mv < b + o)) h.min_overflow_positive_delta &&
      Option.all (fun u => decide (b < u)) h.max_underflow_negative_delta) = true
  · rw [if_pos hcond] at hne
    exact absurd rfl hne
  · rw [if_neg hcond]

/-! Claim C3. -/

/-- Claim C3 (amended): read_most_recent_aggregator_value returns the stored
    value on a Data state without consulting the resolver; on a Delta state
    with start AggregatedValue(v), provided 0 ≤ v + delta ≤ max_value, it
    returns v + delta without consulting the resolver; otherwise (Unset or
    LastCommittedValue start), provided the history bounds the running delta,
    it fetches v with an Aggregated read, validates the history against v, and
    only on success sets the start to AggregatedValue(v) and returns
    v + delta; when the resolver read or the validation fails it returns an
    error and the state is unchanged. -/
theorem c3_read_most_recent_behaviour :
    (∀ (a : Aggregator) (r : AggregatorResolver) (v : Nat),
      a.state = .Data v → a.read_most_recent_aggregator_value r = (.ok v, a)) ∧
    (∀ (a : Aggregator) (r : AggregatorResolver) (v : Nat) (δ : SignedU128) (h : DeltaHistory),
      a.state = .Delta (.AggregatedValue v) δ h →
      0 ≤ (v : Int) + δ.toInt → (v : Int) + δ.toInt ≤ a.max_value →
      a.read_most_recent_aggregator_value r = (.ok ((v : Int) + δ.toInt).toNat, a)) ∧
    (∀ (a : Aggregator) (r : AggregatorResolver) (sv : SpeculativeStartValue)
        (δ : SignedU128) (h : DeltaHistory),
      a.state = .Delta sv δ h →
      (sv = .Unset ∨ ∃ w, sv = .LastCommittedValue w) →
      -(h.min_achieved_negative_delta : Int) ≤ δ.toInt →
      δ.toInt ≤ (h.max_achieved_positive_delta : Int) →
      (∀ e, resolverRead r a.id .Aggregated = .error e →
        a.read_most_recent_aggregator_value r = (.error .extension, a)) ∧
      (resolverRead r a.id .Aggregated = .ok none →
        a.read_most_recent_aggregator_value r = (.error .extension, a)) ∧
      (∀ v, resolverRead r a.id .Aggregated = .ok (some v) →
        (h.validate_against_base_value v a.max_value = .error .speculative →
          a.read_most_recent_aggregator_value r = (.error .speculative, a)) ∧
        (h.validate_against_base_value v a.max_value = .ok () →
          a.read_most_recent_aggregator_value r =
            (.ok ((v : Int) + δ.toInt).toNat,
              { a with state := .Delta (.AggregatedValue v) δ h })))) := by
  refine ⟨?_, ?_, ?_⟩
  · intro a r v hs
    simp [Aggregator.read_most_recent_aggregator_value, hs]
  · intro a r v δ h hs hlo hhi
    have hcur : BoundedMath.unsigned_add_delta ⟨a.max_value⟩ v δ =
        .ok ((v : Int) + δ.toInt).toNat := unsigned_add_delta_ok _ v δ hlo hhi
    simp only [Aggregator.read_most_recent_aggregator_value, hs, hcur]
  · intro a r sv δ h hs hsv hδlo hδhi
    have hmain : ∀ (res : Except PartialVMError Nat × Aggregator),
        (match resolverRead r a.id .Aggregated with
          | .error _ => (.error .extension, a)
          | .ok none => (.error .extension, a)
          | .ok (some v) =>
            match h.validate_against_base_value v a.max_value with
            | .error e => (.error e, a)
            | .ok _ =>
              match expect_ok (BoundedMath.unsigned_add_delta ⟨a.max_value⟩ v δ) with
              | .error e => (.error e, a)
              | .ok result =>
                (.ok result, { a with state := .Delta (.AggregatedValue v) δ h })) = res →
        a.read_most_recent_aggregator_value r = res := by
      intro res hres
      rcases hsv with hu | ⟨w, hw⟩
      · subst hu
        simpa only [Aggregator.read_most_recent_aggregator_value, hs] using hres
      · subst hw
        simpa only [Aggregator.read_most_recent_aggregator_value, hs] using hres
    refine ⟨?_, ?_, ?_⟩
    · intro e he
      exact hmain _ (by rw [he])
    · intro he
      exact hmain _ (by rw [he])
    · intro v hv
      constructor
      · intro hval
        exact hmain _ (by simp only [hv, hval])
      · intro hval
        have hbounds := (validate_ok_iff h v a.max_value).1 hval
        have hcur : BoundedMath.unsigned_add_delta ⟨a.max_value⟩ v δ =
            .ok ((v : Int) + δ.toInt).toNat := by
          apply unsigned_add_delta_ok
          · omega
          · simp only [mk_max_value]
            omega
        exact hmain _ (by simp only [hv, hval, hcur, expect_ok])

/-- Witness for C3: a concrete Unset delta aggregator is materialized from a
    concrete resolver, the start becomes AggregatedValue and the aggregated
    value is returned. -/
theorem c3_witness :
    unsetAgg10.read_most_recent_aggregator_value (constResolver 4) =
      (.ok (((4 : Nat) : Int) + (SignedU128.Positive 0).toInt).toNat,
        { unsetAgg10 with state := .Delta (.AggregatedValue 4) (.Positive 0) DeltaHistory.new }) :=
  ((c3_read_most_recent_behaviour.2.2 unsetAgg10 (constResolver 4) .Unset (.Positive 0)
      DeltaHistory.new rfl (Or.inl rfl) (by decide) (by decide)).2.2 4 rfl).2 rfl

/-- Counterexample to claim C3 as stated: an aggregator whose delta Positive(50)
    exceeds what its (empty) history achieved, with max_value 10.  The
    resolver returns base value 0 and the history validates against 0, but
    instead of setting the start and returning 0 + 50 the code fails with a
    code-invariant error (applying the delta overflows) and leaves the state
    unchanged. -/
theorem c3_counterexample :
    DeltaHistory.new.validate_against_base_value 0 overAgg10.max_value = .ok () ∧
    resolverRead (constResolver 0) overAgg10.id .Aggregated = .ok (some 0) ∧
    overAgg10.read_most_recent_aggregator_value (constResolver 0) =
      (.error .codeInvariant, overAgg10) :=
  ⟨rfl, rfl, rfl⟩

/-! Preservation of the delta invariant by the history-recording operations. -/

theorem deltaInv_record_success (mv s : Nat) (δ : SignedU128) (h : DeltaHistory) (x : Int)
    (hI : deltaInv mv s δ h) (h0 : 0 ≤ (s : Int) + x) (h1 : (s : Int) + x ≤ mv) :
    deltaInv mv s (.ofInt x) (h.record_success (.ofInt x)) := by
  obtain ⟨ma, mi, ov, un⟩ := h
  simp only [deltaInv] at hI
  obtain ⟨c1, c2, c3, c4, c5, c6⟩ := hI
  by_cases hx : 0 ≤ x
  · have hof : SignedU128.ofInt x = .Positive x.toNat := by
      unfold SignedU128.ofInt
      rw [if_pos hx]
    rw [hof]
    simp only [DeltaHistory.record_success]
    by_cases hgt : ma < x.toNat
    · rw [if_pos hgt]
      exact ⟨by dsimp only; omega, by dsimp only; omega,
        by dsimp only [toInt_Positive]; omega, by dsimp only [toInt_Positive]; omega,
        by dsimp only; exact c5, by dsimp only; exact c6⟩
    · rw [if_neg hgt]
      exact ⟨c1, c2, by dsimp only [toInt_Positive]; omega,
        by dsimp only [toInt_Positive]; omega, c5, c6⟩
  · have hof : SignedU128.ofInt x = .Negative (-x).toNat := by
      unfold SignedU128.ofInt
      rw [if_neg hx]
    rw [hof]
    simp only [DeltaHistory.record_success]
    by_cases hgt : mi < (-x).toNat
    · rw [if_pos hgt]
      exact ⟨by dsimp only; omega, by dsimp only; omega,
        by dsimp only [toInt_Negative]; omega, by dsimp only [toInt_Negative]; omega,
        by dsimp only; exact c5, by dsimp only; exact c6⟩
    · rw [if_neg hgt]
      exact ⟨c1, c2, by dsimp only [toInt_Negative]; omega,
        by dsimp only [toInt_Negative]; omega, c5, c6⟩

theorem deltaInv_record_overflow (mv s : Nat) (δ : SignedU128) (h : DeltaHistory) (o : Nat)
    (hI : deltaInv mv s δ h) (ho : mv < s + o) :
    deltaInv mv s δ (h.record_overflow o) := by
  obtain ⟨ma, mi, ov, un⟩ := h
  simp only [deltaInv] at hI
  obtain ⟨c1, c2, c3, c4, c5, c6⟩ := hI
  cases ov with
  | none =>
    refine ⟨c1, c2, c3, c4, ?_, c6⟩
    intro x hx
    simp only [DeltaHistory.record_overflow, Option.mem_def, Option.some.injEq] at hx
    omega
  | some cur =>
    refine ⟨c1, c2, c3, c4, ?_, c6⟩
    intro x hx
    simp only [DeltaHistory.record_overflow, Option.mem_def, Option.some.injEq] at hx
    have hcur := c5 cur (by simp)
    omega

theorem deltaInv_record_underflow (mv s : Nat) (δ : SignedU128) (h : DeltaHistory) (u : Nat)
    (hI : deltaInv mv s δ h) (hu : s < u) :
    deltaInv mv s δ (h.record_underflow u) := by
  obtain ⟨ma, mi, ov, un⟩ := h
  simp only [deltaInv] at hI
  obtain ⟨c1, c2, c3, c4, c5, c6⟩ := hI
  cases un with
  | none =>
    refine ⟨c1, c2, c3, c4, c5, ?_⟩
    intro x hx
    simp only [DeltaHistory.record_underflow, Option.mem_def, Option.some.injEq] at hx
    omega
  | some cur =>
    refine ⟨c1, c2, c3, c4, c5, ?_⟩
    intro x hx
    simp only [DeltaHistory.record_underflow, Option.mem_def, Option.some.injEq] at hx
    have hcur := c6 cur (by simp)
    omega

theorem deltaInv_validate (mv s : Nat) (δ : SignedU128) (h : DeltaHistory)
    (hI : deltaInv mv s δ h) : h.validate_against_base_value s mv = .ok () := by
  obtain ⟨c1, c2, c3, c4, c5, c6⟩ := hI
  exact (validate_ok_iff h s mv).2 ⟨c1, c2, c5, c6⟩

/-! Reduction helpers for the Unset initialization path. -/

theorem rlc_unset_ok (a : Aggregator) (r : AggregatorResolver) (b : Nat)
    (hs : a.state = .Delta .Unset (.Positive 0) DeltaHistory.new)
    (hb : resolverRead r a.id .LastCommitted = .ok (some b)) :
    a.read_last_committed_aggregator_value r =
      (.ok (), { a with state := .Delta (.LastCommittedValue b) (.Positive 0) DeltaHistory.new }) := by
  simp only [Aggregator.read_last_committed_aggregator_value, hs]
  rw [if_neg (by simp [DeltaHistory.is_empty, DeltaHistory.new]), hb]

theorem rlc_unset_err (a : Aggregator) (r : AggregatorResolver)
    (hs : a.state = .Delta .Unset (.Positive 0) DeltaHistory.new)
    (hb : resolverRead r a.id .LastCommitted = .error () ∨
      resolverRead r a.id .LastCommitted = .ok none) :
    a.read_last_committed_aggregator_value r = (.error .extension, a) := by
  simp only [Aggregator.read_last_committed_aggregator_value, hs]
  rw [if_neg (by simp [DeltaHistory.is_empty, DeltaHistory.new])]
  rcases hb with hb | hb <;> rw [hb]

theorem try_add_init_step (a a1 : Aggregator) (r : AggregatorResolver) (input : Nat)
    (h1 : a.read_last_committed_aggregator_value r = (.ok (), a1))
    (h2 : a1.read_last_committed_aggregator_value r = (.ok (), a1))
    (hmv : a1.max_value = a.max_value) (hin : input ≤ a.max_value) :
    a.try_add r input = a1.try_add r input := by
  simp only [Aggregator.try_add, h1, h2, hmv]
  rw [if_neg (by omega), if_neg (by omega)]

theorem try_sub_init_step (a a1 : Aggregator) (r : AggregatorResolver) (input : Nat)
    (h1 : a.read_last_committed_aggregator_value r = (.ok (), a1))
    (h2 : a1.read_last_committed_aggregator_value r = (.ok (), a1))
    (hmv : a1.max_value = a.max_value) (hin : input ≤ a.max_value) :
    a.try_sub r input = a1.try_sub r input := by
  simp only [Aggregator.try_sub, h1, h2, hmv]
  rw [if_neg (by omega), if_neg (by omega)]

/-! Shape of the operations on data-mode aggregators. -/

theorem try_add_data_shape (a : Aggregator) (r : AggregatorResolver) (input v : Nat)
    (hs : a.state = .Data v) (hin : input ≤ a.max_value) :
    (a.try_add r input).2.id = a.id ∧ (a.try_add r input).2.max_value = a.max_value ∧
      ∃ w, (a.try_add r input).2.state = .Data w := by
  simp only [Aggregator.try_add, rlc_data_noop a r v hs, hs]
  rw [if_neg (by omega)]
  cases hadd : BoundedMath.unsigned_add ⟨a.max_value⟩ v input with
  | ok nv => exact ⟨rfl, rfl, nv, rfl⟩
  | error e => exact ⟨rfl, rfl, v, hs⟩

theorem try_sub_data_shape (a : Aggregator) (r : AggregatorResolver) (input v : Nat)
    (hs : a.state = .Data v) (hin : input ≤ a.max_value) :
    (a.try_sub r input).2.id = a.id ∧ (a.try_sub r input).2.max_value = a.max_value ∧
      ∃ w, (a.try_sub r input).2.state = .Data w := by
  simp only [Aggregator.try_sub, rlc_data_noop a r v hs, hs]
  rw [if_neg (by omega)]
  cases hsub : BoundedMath.unsigned_subtract ⟨a.max_value⟩ v input with
  | ok nv => exact ⟨rfl, rfl, nv, rfl⟩
  | error e => exact ⟨rfl, rfl, v, hs⟩

/-! The operations preserve the delta invariant on initialized delta states. -/

theorem try_add_delta_preserves (a : Aggregator) (r : AggregatorResolver) (input : Nat)
    (sv : SpeculativeStartValue) (δ : SignedU128) (h : DeltaHistory) (s : Nat)
    (hs : a.state = .Delta sv δ h) (hget : sv.get_any_value = .ok s)
    (hin : input ≤ a.max_value) (hI : deltaInv a.max_value s δ h) :
    (a.try_add r input).2.id = a.id ∧ (a.try_add r input).2.max_value = a.max_value ∧
      ∃ δ1 h1, (a.try_add r input).2.state = .Delta sv δ1 h1 ∧ deltaInv a.max_value s δ1 h1 := by
  have hc := hI
  simp only [deltaInv] at hc
  obtain ⟨c1, c2, c3, c4, c5, c6⟩ := hc
  have hsmv : s ≤ a.max_value := by omega
  have h0 : 0 ≤ (s : Int) + δ.toInt := by omega
  have h1 : (s : Int) + δ.toInt ≤ a.max_value := by omega
  have hchar := try_add_delta_char a r input sv δ h s hs hget hin hsmv h0 h1
  by_cases hsucc : (s : Int) + δ.toInt + input ≤ a.max_value
  · rw [if_pos hsucc] at hchar
    rw [hchar]
    exact ⟨rfl, rfl, _, _, rfl,
      deltaInv_record_success a.max_value s δ h (δ.toInt + input) hI (by omega) (by omega)⟩
  · rw [if_neg hsucc] at hchar
    by_cases hov : (input : Int) + δ.toInt ≤ a.max_value
    · rw [if_pos hov] at hchar
      rw [hchar]
      exact ⟨rfl, rfl, _, _, rfl,
        deltaInv_record_overflow a.max_value s δ h ((input : Int) + δ.toInt).toNat hI (by omega)⟩
    · rw [if_neg hov] at hchar
      rw [hchar]
      exact ⟨rfl, rfl, δ, h, hs, hI⟩

theorem try_sub_delta_preserves (a : Aggregator) (r : AggregatorResolver) (input : Nat)
    (sv : SpeculativeStartValue) (δ : SignedU128) (h : DeltaHistory) (s : Nat)
    (hs : a.state = .Delta sv δ h) (hget : sv.get_any_value = .ok s)
    (hin : input ≤ a.max_value) (hI : deltaInv a.max_value s δ h) :
    (a.try_sub r input).2.id = a.id ∧ (a.try_sub r input).2.max_value = a.max_value ∧
      ∃ δ1 h1, (a.try_sub r input).2.state = .Delta sv δ1 h1 ∧ deltaInv a.max_value s δ1 h1 := by
  have hc := hI
  simp only [deltaInv] at hc
  obtain ⟨c1, c2, c3, c4, c5, c6⟩ := hc
  have hsmv : s ≤ a.max_value := by omega
  have h0 : 0 ≤ (s : Int) + δ.toInt := by omega
  have h1 : (s : Int) + δ.toInt ≤ a.max_value := by omega
  have hchar := try_sub_delta_char a r input sv δ h s hs hget hin hsmv h0 h1
  by_cases hund : (s : Int) + δ.toInt < input
  · rw [if_pos hund] at hchar
    by_cases hrec : (input : Int) - δ.toInt ≤ a.max_value
    · rw [if_pos hrec] at hchar
      rw [hchar]
      exact ⟨rfl, rfl, _, _, rfl,
        deltaInv_record_underflow a.max_value s δ h ((input : Int) - δ.toInt).toNat hI (by omega)⟩
    · rw [if_neg hrec] at hchar
      rw [hchar]
      exact ⟨rfl, rfl, δ, h, hs, hI⟩
  · rw [if_neg hund] at hchar
    rw [hchar]
    exact ⟨rfl, rfl, _, _, rfl,
      deltaInv_record_success a.max_value s δ h (δ.toInt - input) hI (by omega) (by omega)⟩

/-! The operations preserve the whole-aggregator invariant. -/

theorem try_add_preserves_aggInv (a : Aggregator) (r : AggregatorResolver) (input : Nat)
    (hres : resolverLCInRange r a.id a.max_value)
    (hin : input ≤ a.max_value) (hI : aggInv a) :
    (a.try_add r input).2.id = a.id ∧ (a.try_add r input).2.max_value = a.max_value ∧
      aggInv (a.try_add r input).2 := by
  cases hst : a.state with
  | Data v =>
    obtain ⟨hid, hmv, w, hw⟩ := try_add_data_shape a r input v hst hin
    exact ⟨hid, hmv, by simp [aggInv, hw]⟩
  | Delta sv δ h =>
    cases sv with
    | Unset =>
      obtain ⟨hδ, hh⟩ : δ = .Positive 0 ∧ h = DeltaHistory.new := by
        simpa [aggInv, hst] using hI
      subst hδ
      subst hh
      cases hread : resolverRead r a.id .LastCommitted with
      | error e =>
        cases e
        have herr := rlc_unset_err a r hst (Or.inl hread)
        have hres1 : a.try_add r input = (.error .extension, a) := by
          simp only [Aggregator.try_add, herr]
          rw [if_neg (by omega)]
        rw [hres1]
        exact ⟨rfl, rfl, hI⟩
      | ok mb =>
        cases mb with
        | none =>
          have herr := rlc_unset_err a r hst (Or.inr hread)
          have hres1 : a.try_add r input = (.error .extension, a) := by
            simp only [Aggregator.try_add, herr]
            rw [if_neg (by omega)]
          rw [hres1]
          exact ⟨rfl, rfl, hI⟩
        | some b =>
          have hb : b ≤ a.max_value := hres b hread
          have hok := rlc_unset_ok a r b hst hread
          have h2 : ({ a with state := .Delta (.LastCommittedValue b) (.Positive 0) DeltaHistory.new } : Aggregator).read_last_committed_aggregator_value r =
              (.ok (), { a with state := .Delta (.LastCommittedValue b) (.Positive 0) DeltaHistory.new }) :=
            rlc_initialized_noop _ r _ _ _ rfl (by simp)
          have hstep := try_add_init_step a _ r input hok h2 rfl hin
          rw [hstep]
          have hIa1 : deltaInv a.max_value b (.Positive 0) DeltaHistory.new := by
            simp only [deltaInv, DeltaHistory.new, toInt_Positive]
            refine ⟨by omega, by omega, by omega, by omega, ?_, ?_⟩ <;> simp
          obtain ⟨hid1, hmv1, δ1, h1, hst1, hI1⟩ :=
            try_add_delta_preserves
              { a with state := .Delta (.LastCommittedValue b) (.Positive 0) DeltaHistory.new }
              r input (.LastCommittedValue b) (.Positive 0) DeltaHistory.new b rfl rfl hin hIa1
          refine ⟨hid1, hmv1, ?_⟩
          simp only [aggInv, hst1]
          rw [hmv1]
          exact hI1
    | LastCommittedValue w =>
      have hIw : deltaInv a.max_value w δ h := by simpa [aggInv, hst] using hI
      obtain ⟨hid, hmv, δ1, h1, hst1, hI1⟩ :=
        try_add_delta_preserves a r input _ δ h w hst rfl hin hIw
      refine ⟨hid, hmv, ?_⟩
      simp only [aggInv, hst1]
      rw [hmv]
      exact hI1
    | AggregatedValue w =>
      have hIw : deltaInv a.max_value w δ h := by simpa [aggInv, hst] using hI
      obtain ⟨hid, hmv, δ1, h1, hst1, hI1⟩ :=
        try_add_delta_preserves a r input _ δ h w hst rfl hin hIw
      refine ⟨hid, hmv, ?_⟩
      simp only [aggInv, hst1]
      rw [hmv]
      exact hI1

theorem try_sub_preserves_aggInv (a : Aggregator) (r : AggregatorResolver) (input : Nat)
    (hres : resolverLCInRange r a.id a.max_value)
    (hin : input ≤ a.max_value) (hI : aggInv a) :
    (a.try_sub r input).2.id = a.id ∧ (a.try_sub r input).2.max_value = a.max_value ∧
      aggInv (a.try_sub r input).2 := by
  cases hst : a.state with
  | Data v =>
    obtain ⟨hid, hmv, w, hw⟩ := try_sub_data_shape a r input v hst hin
    exact ⟨hid, hmv, by simp [aggInv, hw]⟩
  | Delta sv δ h =>
    cases sv with
    | Unset =>
      obtain ⟨hδ, hh⟩ : δ = .Positive 0 ∧ h = DeltaHistory.new := by
        simpa [aggInv, hst] using hI
      subst hδ
      subst hh
      cases hread : resolverRead r a.id .LastCommitted with
      | error e =>
        cases e
        have herr := rlc_unset_err a r hst (Or.inl hread)
        have hres1 : a.try_sub r input = (.error .extension, a) := by
          simp only [Aggregator.try_sub, herr]
          rw [if_neg (by omega)]
        rw [hres1]
        exact ⟨rfl, rfl, hI⟩
      | ok mb =>
        cases mb with
        | none =>
          have herr := rlc_unset_err a r hst (Or.inr hread)
          have hres1 : a.try_sub r input = (.error .extension, a) := by
            simp only [Aggregator.try_sub, herr]
            rw [if_neg (by omega)]
          rw [hres1]
          exact ⟨rfl, rfl, hI⟩
        | some b =>
          have hb : b ≤ a.max_value := hres b hread
          have hok := rlc_unset_ok a r b hst hread
          have h2 : ({ a with state := .Delta (.LastCommittedValue b) (.Positive 0) DeltaHistory.new } : Aggregator).read_last_committed_aggregator_value r =
              (.ok (), { a with state := .Delta (.LastCommittedValue b) (.Positive 0) DeltaHistory.new }) :=
            rlc_initialized_noop _ r _ _ _ rfl (by simp)
          have hstep := try_sub_init_step a _ r input hok h2 rfl hin
          rw [hstep]
          have hIa1 : deltaInv a.max_value b (.Positive 0) DeltaHistory.new := by
            simp only [deltaInv, DeltaHistory.new, toInt_Positive]
            refine ⟨by omega, by omega, by omega, by omega, ?_, ?_⟩ <;> simp
          obtain ⟨hid1, hmv1, δ1, h1, hst1, hI1⟩ :=
            try_sub_delta_preserves
              { a with state := .Delta (.LastCommittedValue b) (.Positive 0) DeltaHistory.new }
              r input (.LastCommittedValue b) (.Positive 0) DeltaHistory.new b rfl rfl hin hIa1
          refine ⟨hid1, hmv1, ?_⟩
          simp only [aggInv, hst1]
          rw [hmv1]
          exact hI1
    | LastCommittedValue w =>
      have hIw : deltaInv a.max_value w δ h := by simpa [aggInv, hst] using hI
      obtain ⟨hid, hmv, δ1, h1, hst1, hI1⟩ :=
        try_sub_delta_preserves a r input _ δ h w hst rfl hin hIw
      refine ⟨hid, hmv, ?_⟩
      simp only [aggInv, hst1]
      rw [hmv]
      exact hI1
    | AggregatedValue w =>
      have hIw : deltaInv a.max_value w δ h := by simpa [aggInv, hst] using hI
      obtain ⟨hid, hmv, δ1, h1, hst1, hI1⟩ :=
        try_sub_delta_preserves a r input _ δ h w hst rfl hin hIw
      refine ⟨hid, hmv, ?_⟩
      simp only [aggInv, hst1]
      rw [hmv]
      exact hI1

theorem applyOp_preserves (a : Aggregator) (r : AggregatorResolver) (op : AggOp)
    (hres : resolverLCInRange r a.id a.max_value)
    (hin : op.inputOf ≤ a.max_value) (hI : aggInv a) :
    (a.applyOp r op).2.id = a.id ∧ (a.applyOp r op).2.max_value = a.max_value ∧
      aggInv (a.applyOp r op).2 := by
  cases op with
  | add i => exact try_add_preserves_aggInv a r i hres hin hI
  | sub i => exact try_sub_preserves_aggInv a r i hres hin hI

theorem runOps_preserves (r : AggregatorResolver) (ops : List AggOp) :
    ∀ a : Aggregator, resolverLCInRange r a.id a.max_value →
      (∀ op ∈ ops, op.inputOf ≤ a.max_value) → aggInv a →
      (a.runOps r ops).id = a.id ∧ (a.runOps r ops).max_value = a.max_value ∧
        aggInv (a.runOps r ops) := by
  induction ops with
  | nil => exact fun a _ _ h3 => ⟨rfl, rfl, h3⟩
  | cons op ops ih =>
    intro a h1 h2 h3
    have hstep := applyOp_preserves a r op h1 (h2 op (by simp)) h3
    have hnext := ih (a.applyOp r op).2
      (by rw [hstep.1, hstep.2.1]; exact h1)
      (by intro o ho; rw [hstep.2.1]; exact h2 o (by simp [ho]))
      hstep.2.2
    simp only [Aggregator.runOps]
    exact ⟨by rw [hnext.1, hstep.1], by rw [hnext.2.1, hstep.2.1], hnext.2.2⟩

/-! Claim C2. -/

/-- Claim C2 (amended): for every state reachable from an initial aggregator
    state (Data 0, or Delta with Unset start, zero delta and empty history) by
    any sequence of try_add/try_sub calls with inputs in 0..max_value, and
    provided the resolver serves last-committed reads of this aggregator only
    with values ≤ max_value, if the reached state is Delta with an initialized
    start value s then the history validates against s. -/
theorem c2_reachable_delta_history_validates (a : Aggregator) (r : AggregatorResolver)
    (ops : List AggOp)
    (hinit : a.state = .Data 0 ∨ a.state = .Delta .Unset (.Positive 0) DeltaHistory.new)
    (hres : resolverLCInRange r a.id a.max_value)
    (hops : ∀ op ∈ ops, op.inputOf ≤ a.max_value) :
    ∀ (sv : SpeculativeStartValue) (δ : SignedU128) (h : DeltaHistory),
      (a.runOps r ops).state = .Delta sv δ h →
      ∀ s : Nat, sv.get_any_value = .ok s →
        h.validate_against_base_value s a.max_value = .ok () := by
  have hI : aggInv a := by
    rcases hinit with hst | hst <;> simp [aggInv, hst]
  have hrun := runOps_preserves r ops a hres hops hI
  intro sv δ h hst s hget
  have hinv := hrun.2.2
  simp only [aggInv, hst] at hinv
  cases sv with
  | Unset =>
    exact absurd hget (by simp [SpeculativeStartValue.get_any_value])
  | LastCommittedValue w =>
    have hsw : w = s := by
      simpa [SpeculativeStartValue.get_any_value] using hget
    subst hsw
    rw [hrun.2.1] at hinv
    exact deltaInv_validate a.max_value w δ h hinv
  | AggregatedValue w =>
    have hsw : w = s := by
      simpa [SpeculativeStartValue.get_any_value] using hget
    subst hsw
    rw [hrun.2.1] at hinv
    exact deltaInv_validate a.max_value w δ h hinv

/-- Witness for C2 at a concrete run: base 3, max_value 10, operations
    add 2 then sub 1 reach history (2, 0, none, none) with start 3, which
    validates. -/
theorem c2_witness :
    DeltaHistory.validate_against_base_value ⟨2, 0, none, none⟩ 3 unsetAgg10.max_value =
      .ok () :=
  c2_reachable_delta_history_validates unsetAgg10 (constResolver 3)
    [AggOp.add 2, AggOp.sub 1] (Or.inr rfl)
    (by intro v hv; simp [resolverRead, constResolver, unsetAgg10] at hv; simp [unsetAgg10]; omega)
    (by intro op hop; fin_cases hop <;> decide)
    (.LastCommittedValue 3) (.Positive 1) ⟨2, 0, none, none⟩ rfl 3 rfl

/-- Counterexample to claim C2 as stated: with max_value 1 and a resolver
    whose last-committed value is 5 (out of range), the in-range call
    try_add(0) initializes the start to LastCommittedValue(5) before failing,
    and the reached history (the empty one) does not validate against 5. -/
theorem c2_counterexample :
    (AggOp.add 0).inputOf ≤ unsetAgg1.max_value ∧
    (unsetAgg1.runOps (constResolver 5) [AggOp.add 0]).state =
      .Delta (.LastCommittedValue 5) (.Positive 0) DeltaHistory.new ∧
    DeltaHistory.new.validate_against_base_value 5 unsetAgg1.max_value =
      .error .speculative :=
  ⟨by decide, rfl, rfl⟩
